import Mathlib

/-!
Shallow embedding of the path-resolution and file-format-parsing subsystem of
`epxresults` (modules `utils.py`, `run.py`, `job.py`, `snapshot.py`,
`insert.py`), together with theorems settling the frozen claims about it.

Modelling conventions, used throughout:

* The file system is an abstract oracle `FS` (directory test, file test and a
  total line reader).  Reading a path that is not a file is always guarded by
  an `isfile` test in the source, so a total `read` is faithful.  A file's
  content is given as its list of lines *without* the terminating newline of
  each line; Python's `int`/`float` conversions strip surrounding whitespace,
  so the parses below agree with the originals on such lines.
* `os.path.abspath` is modelled as the identity: every path handed to the
  embedded resolvers is taken to be already absolute and canonical.
  `os.path.join(a, b)` for a relative second component is `a ++ "/" ++ b`.
* Python exceptions are modelled by their kind only (messages are dropped);
  a fallible computation returns `Except PyErr`.
* Python `float` values are modelled as exact rationals (`Rat`); the special
  values `inf`/`nan` and underscore digit separators are outside the model.
* `warnings.warn` calls are dropped except in `Snapshot.date`, where a claim
  is about the warning; there the result carries an explicit warning flag.
-/

/-- The kinds of Python exception that the embedded code can surface. -/
inductive PyErr where
  | valueError
  | fileNotFoundError
  | keyError
  | runtimeError
  | nameError
  | unboundLocalError
  | indexError
  deriving DecidableEq, Repr

abbrev PyResult (α : Type) := Except PyErr α

/-- Abstract file-system oracle: `isdir`/`isfile` mirror `os.path.isdir` /
`os.path.isfile` (and `os.path.exists` at file paths), and `read p` is the
list of lines of the file at `p` (without trailing newlines). -/
structure FS where
  isdir : String → Bool
  isfile : String → Bool
  read : String → List String

/-- Process environment: the two variables the address resolver consults. -/
structure Env where
  FRED_RESULTS : Option String
  FRED_HOME : Option String

/-- The keyword arguments threaded through the resolvers (`**kwargs`).
A field is `some v` exactly when the corresponding key is present in the
Python `kwargs` dictionary.  Note that `date` is *not* a field: in
`_path_to_snapshot(date=None, **kwargs)` the name `date` is a named
parameter, so it can never occur in `kwargs`. -/
structure Kwargs where
  FRED_RESULTS : Option String
  FRED_HOME : Option String
  PATH_TO_JOB : Option String
  PATH_TO_RUN : Option String
  PATH_TO_SNAPSHOT : Option String
  job_id : Option Int
  job_key : Option String

/-- The empty `kwargs` dictionary. -/
def Kwargs.none : Kwargs := ⟨.none, .none, .none, .none, .none, .none, .none⟩

/-! ### String primitives

Executable models of the Python string operations the sources use, defined
over character lists so that every parse reduces inside the kernel. -/

/-- Strip leading and trailing whitespace (`str.strip()`). -/
def pyStripChars (cs : List Char) : List Char :=
  ((cs.dropWhile Char.isWhitespace).reverse.dropWhile Char.isWhitespace).reverse

/-- Model of `str.strip()`. -/
def pyStrip (s : String) : String := String.mk (pyStripChars s.data)

/-- Split at every character satisfying `p`, keeping empty fields. -/
def splitBy (p : Char → Bool) : List Char → List (List Char)
  | [] => [[]]
  | c :: cs =>
    let r := splitBy p cs
    if p c then [] :: r
    else
      match r with
      | [] => [[c]]
      | h :: t => (c :: h) :: t

/-- Model of `str.split(sep)` with a one-character separator: split on every
occurrence, keeping empty fields. -/
def pySplitOn (sep : Char) (s : String) : List String :=
  (splitBy (fun c => c = sep) s.data).map String.mk

/-- Model of `str.split()` with no separator: split on whitespace runs, dropping
empty fields. -/
def pySplitWs (s : String) : List String :=
  ((splitBy Char.isWhitespace s.data).filter (fun t => t ≠ [])).map String.mk

/-! ### Python scalar conversions (`utils._value_str_to_value` and friends) -/

/-- Value of a list of decimal digit characters. -/
def digitsToNat (cs : List Char) : Nat :=
  cs.foldl (fun acc c => acc * 10 + (c.toNat - '0'.toNat)) 0

/-- Model of `int(s)` for a base-10 literal: surrounding whitespace stripped, an
optional sign, then a nonempty run of digits; anything else raises
`ValueError`, modelled as `none`. -/
def pyInt? (s : String) : Option Int :=
  match pyStripChars s.data with
  | '-' :: ds => if ds ≠ [] ∧ ds.all Char.isDigit then some (-(digitsToNat ds : Int)) else none
  | '+' :: ds => if ds ≠ [] ∧ ds.all Char.isDigit then some ((digitsToNat ds : Int)) else none
  | ds => if ds ≠ [] ∧ ds.all Char.isDigit then some ((digitsToNat ds : Int)) else none

/-- Parse an optional exponent part (`e`/`E`, optional sign, digits). Returns
the exponent as an integer, `none` on malformed input, and `some 0` for the
empty rest. -/
def parseExponent (cs : List Char) : Option Int :=
  match cs with
  | [] => some 0
  | e :: rest =>
    if e = 'e' ∨ e = 'E' then
      match rest with
      | '-' :: ds => if ds ≠ [] ∧ ds.all Char.isDigit then some (-(digitsToNat ds : Int)) else none
      | '+' :: ds => if ds ≠ [] ∧ ds.all Char.isDigit then some ((digitsToNat ds : Int)) else none
      | ds => if ds ≠ [] ∧ ds.all Char.isDigit then some ((digitsToNat ds : Int)) else none
    else none

/-- Parse the unsigned part of a float literal: `digits[.digits]` or
`.digits`, optionally followed by an exponent. -/
def parseUnsignedFloat (cs : List Char) : Option Rat :=
  let intPart := cs.takeWhile Char.isDigit
  let rest := cs.dropWhile Char.isDigit
  match rest with
  | '.' :: rest' =>
    let fracPart := rest'.takeWhile Char.isDigit
    let rest'' := rest'.dropWhile Char.isDigit
    if intPart = [] ∧ fracPart = [] then none
    else
      match parseExponent rest'' with
      | some e =>
        let mantissa : Rat :=
          (digitsToNat intPart : Rat) +
            (digitsToNat fracPart : Rat) / ((10 : Rat) ^ fracPart.length)
        some (mantissa * (10 : Rat) ^ (e : Int))
      | none => none
  | _ =>
    if intPart = [] then none
    else
      match parseExponent rest with
      | some e => some ((digitsToNat intPart : Rat) * (10 : Rat) ^ (e : Int))
      | none => none

/-- Model of `float(s)`: surrounding whitespace stripped, optional sign, then a
decimal literal with optional fraction and exponent.  `inf`/`nan` are
outside the model. -/
def pyFloat? (s : String) : Option Rat :=
  match pyStripChars s.data with
  | '-' :: cs => (parseUnsignedFloat cs).map (fun q => -q)
  | '+' :: cs => parseUnsignedFloat cs
  | cs => parseUnsignedFloat cs

/-- A Python scalar as produced by `_value_str_to_value`. -/
inductive PyVal where
  | int (n : Int)
  | float (q : Rat)
  | str (s : String)
  deriving DecidableEq, Repr

/-- Embedding of `utils._value_str_to_value`: try `int`, then `float`, else return the
string unaltered. -/
def valueStrToValue (s : String) : PyVal :=
  match pyInt? s with
  | some n => .int n
  | none =>
    match pyFloat? s with
    | some q => .float q
    | none => .str s

/-- Truncation toward zero, as in Python `int(float)`. -/
def pyTrunc (q : Rat) : Int := q.num.tdiv q.den

/-- Coerce one `_value_str_to_value` result to an integer, as the
`pd.Series(arr, dtype="int")` construction in `FREDRun.get_state` does. -/
def pyValToInt (v : PyVal) : Option Int :=
  match v with
  | .int n => some n
  | .float q => some (pyTrunc q)
  | .str s => pyInt? s

/-- Coerce one `_value_str_to_value` result to a float, as the
`pd.Series(arr, dtype="float")` construction in `FREDRun.get_variable`
does. -/
def pyValToFloat (v : PyVal) : Option Rat :=
  match v with
  | .int n => some (n : Rat)
  | .float q => some q
  | .str s => pyFloat? s

/-! ### Address resolver (`utils.py`) -/

/-- Python `dict` update `d[k] = v`: replace in place if the key is present
(keeping its position), otherwise append. -/
def assocUpdate {κ β : Type} [DecidableEq κ] (l : List (κ × β)) (k : κ) (v : β) :
    List (κ × β) :=
  if l.any (fun kv => kv.1 = k) then
    l.map (fun kv => if kv.1 = k then (k, v) else kv)
  else l ++ [(k, v)]

/-- Embedding of `utils._inferred_path_to_results`: consult `FRED_RESULTS`, then
`FRED_HOME` (with the `/results` suffix and a warning), in the environment;
`RuntimeError` if neither is set, `FileNotFoundError` if the inferred path
is not a directory. -/
def inferredPathToResults (fs : FS) (env : Env) : PyResult String :=
  match env.FRED_RESULTS with
  | some r =>
    if fs.isdir r = false then .error .fileNotFoundError else .ok r
  | none =>
    match env.FRED_HOME with
    | some h =>
      let r := h ++ "/results"
      if fs.isdir r = false then .error .fileNotFoundError else .ok r
    | none => .error .runtimeError

/-- Embedding of `utils._path_to_results`: `FRED_RESULTS` keyword wins (a warning if
`FRED_HOME` is also given), then `FRED_HOME/results`, then the environment;
a `RuntimeError` from the environment fallback is converted to
`ValueError`.  The result is existence-checked. -/
def pathToResults (fs : FS) (env : Env) (kw : Kwargs) : PyResult String := do
  let fredResults ←
    match kw.FRED_RESULTS with
    | some r => pure r
    | none =>
      match kw.FRED_HOME with
      | some h => pure (h ++ "/results")
      | none =>
        match inferredPathToResults fs env with
        | .ok r => pure r
        | .error .runtimeError => throw .valueError
        | .error e => throw e
  -- `FRED_RESULTS = os.path.abspath(FRED_RESULTS)`: identity in the model
  if fs.isdir fredResults = false then throw .fileNotFoundError
  else pure fredResults

/-- Embedding of `utils.load_local_job_keys`: resolve the results directory, return the
empty registry (with a warning) if it has no `KEY` file, else parse lines
`"<key> <id>"` into a job-key-to-job-id dictionary. -/
def loadLocalJobKeys (fs : FS) (env : Env) (kw : Kwargs) :
    PyResult (List (String × Int)) := do
  let res ← pathToResults fs env kw
  let filename := res ++ "/KEY"
  if fs.isfile filename = false then
    -- warns and returns an empty dictionary of job keys
    pure []
  else
    (fs.read filename).foldlM (fun keys line =>
      match pySplitWs (pyStrip line) with
      | [k, v] =>
        match pyInt? v with
        | some n => pure (assocUpdate keys k n)
        | none => throw .valueError
      | _ => throw .valueError) []

/-- Embedding of `utils.return_job_id`: look the key up in the registry; on a miss the
handler re-resolves the results path (for the message) and raises
`KeyError`. -/
def returnJobId (fs : FS) (env : Env) (jobKey : String) (kw : Kwargs) :
    PyResult Int := do
  let keys ← loadLocalJobKeys fs env kw
  match keys.lookup jobKey with
  | some i => pure i
  | none => do
    let _ ← pathToResults fs env kw
    throw .keyError

/-- Embedding of `utils._path_to_job`.  Faithful to the source, including its slip: when
none of `PATH_TO_JOB`, `job_id`, `job_key` is supplied, the final `else`
only *constructs* `ValueError(msg)` without raising it, so `job_id` stays
unbound and evaluating `str(job_id)` later raises `UnboundLocalError`.
When the composed job directory is missing, the error message f-string
references the undefined name `FRED_RESULTS`, raising `NameError`. -/
def pathToJob (fs : FS) (env : Env) (kw : Kwargs) : PyResult String := do
  match kw.PATH_TO_JOB with
  | some p =>
    if fs.isdir p = false then throw .fileNotFoundError
    else pure p
  | none => do
    let jobId? : Option Int ←
      match kw.job_id with
      | some i => pure (some i)
      | none =>
        match kw.job_key with
        | some k => do
          let i ← returnJobId fs env k kw
          pure (some i)
        | none =>
          -- source: `ValueError(msg)` — created but never raised
          pure none
    let pathToRes ← pathToResults fs env kw
    match jobId? with
    | none =>
      -- `'JOB/'+str(job_id)` with `job_id` never assigned
      throw .unboundLocalError
    | some jid =>
      let pj := pathToRes ++ "/" ++ ("JOB/" ++ toString jid)
      if fs.isdir pj = false then
        -- msg references the undefined name `FRED_RESULTS`
        throw .nameError
      else pure pj

/-- Embedding of `utils._path_to_run`.  Faithful to the source, including its slip: when
`PATH_TO_RUN` is supplied but is not a directory, `FileNotFoundError(msg)`
is constructed but never raised, and the nonexistent path is returned.
The trailing `/` of `'OUT/RUN{run_id}/'` is removed by `os.path.abspath`. -/
def pathToRun (fs : FS) (env : Env) (runId : Int) (kw : Kwargs) :
    PyResult String := do
  match kw.PATH_TO_RUN with
  | some p =>
    if fs.isdir p = false then
      -- source: `FileNotFoundError(msg)` — created but never raised
      pure p
    else pure p
  | none => do
    -- a ValueError from `_path_to_job` is caught and re-raised as ValueError
    let pj ← pathToJob fs env kw
    let pr := pj ++ "/OUT/RUN" ++ toString runId
    if fs.isdir pr = false then throw .fileNotFoundError
    else pure pr

/-! ### Snapshot resolver (`snapshot.py`) -/

/-- Embedding of `snapshot._path_to_snapshot`.  Faithful to the source, including two
slips: when `PATH_TO_SNAPSHOT` is supplied but missing,
`FileNotFoundError(msg)` is constructed but never raised; and the check
`if "date" in kwargs.keys()` can never succeed because `date` is a named
parameter of the function, so the `snapshot.{date}.tgz` branch is dead and
the `date` argument is ignored — the filename always comes from the last
line of `OUT/completed-snapshots.txt`, or the legacy `snapshot.tgz` when
that manifest is absent.  `readlines()[-1]` on an empty manifest raises
`IndexError` (not caught by the `except FileNotFoundError`). -/
def pathToSnapshot (fs : FS) (env : Env) (date : Option String) (kw : Kwargs) :
    PyResult String := do
  match kw.PATH_TO_SNAPSHOT with
  | some p =>
    if fs.isfile p = false then
      -- source: `FileNotFoundError(msg)` — created but never raised
      pure p
    else pure p
  | none => do
    -- a ValueError from `_path_to_job` is caught and re-raised as ValueError
    let pj ← pathToJob fs env kw
    -- `if "date" in kwargs.keys()` — always false (see the doc comment);
    -- `date` is not read
    let manifest := pj ++ "/OUT/completed-snapshots.txt"
    let filename ←
      if fs.isfile manifest then
        match (fs.read manifest).getLast? with
        | some last => pure (pyStrip last)
        | none => throw .indexError
      else pure "snapshot.tgz"
    let ps := pj ++ "/OUT/" ++ filename
    if fs.isfile ps = false then throw .fileNotFoundError
    else pure ps

/-! ### Run-level queries (`run.py`) -/

/-- Embedding of `run._interval_dirs`, verbatim from the source — note the capitalised
key `"Weekly"`. -/
def intervalDirs : List (String × String) := [("daily", "DAILY"), ("Weekly", "WEEKLY")]

/-- Embedding of `_count_types` (identical in `run.py` and `job.py`): prefix associated
with different state counts. -/
def countTypes : List (String × String) :=
  [("count", ""), ("new", "new"), ("cumulative", "tot")]

/-- Elementwise fallible map, propagating the first error — the shape of
every per-line parsing loop in `run.py`. -/
def mapPyResult (f : α → PyResult β) : List α → PyResult (List β)
  | [] => pure []
  | x :: xs => do
    let y ← f x
    let ys ← mapPyResult f xs
    pure (y :: ys)

/-- One line of a state/variable file: `sim_time_unit, value = line.split(" ")`
(exactly two fields), then `_value_str_to_value(value)`. -/
def parseSeriesLine (line : String) : PyResult PyVal :=
  match pySplitOn ' ' line with
  | [_, value] => pure (valueStrToValue value)
  | _ => throw .valueError

/-- The part of `FREDRun.get_state` after the data filename has been
composed: existence check, per-line parse, and the
`pd.Series(arr, dtype="int")` coercion. -/
def readStateSeries (fs : FS) (fname : String) : PyResult (List Int) := do
  if fs.isfile fname = false then throw .fileNotFoundError
  else do
    let arr ← mapPyResult parseSeriesLine (fs.read fname)
    mapPyResult (fun v =>
      match pyValToInt v with
      | some n => pure n
      | none => throw .valueError) arr

/-- Embedding of `FREDRun.get_state`: validate `count_type` and `interval`, select the
data file `{condition}.{prefix}{state}.txt` under the interval directory,
and read it as an integer series. -/
def getState (fs : FS) (pathToRun condition state count_type interval : String) :
    PyResult (List Int) := do
  let pre ←
    match List.lookup count_type countTypes with
    | some p => pure p
    | none => throw .valueError
  let idir ←
    match List.lookup interval intervalDirs with
    | some d => pure d
    | none => throw .valueError
  readStateSeries fs (pathToRun ++ "/" ++ idir ++ "/" ++ (condition ++ "." ++ pre ++ state ++ ".txt"))

/-- The part of `FREDRun.get_variable` after the filename: existence check,
per-line parse, and the `pd.Series(arr, dtype="float")` coercion. -/
def readVariableSeries (fs : FS) (fname : String) : PyResult (List Rat) := do
  if fs.isfile fname = false then throw .fileNotFoundError
  else do
    let arr ← mapPyResult parseSeriesLine (fs.read fname)
    mapPyResult (fun v =>
      match pyValToFloat v with
      | some q => pure q
      | none => throw .valueError) arr

/-- Embedding of `FREDRun.get_variable`: validate `interval`, select
`FRED.{variable}.txt` under the interval directory, read as a float
series. -/
def getVariable (fs : FS) (pathToRun var interval : String) : PyResult (List Rat) := do
  let idir ←
    match List.lookup interval intervalDirs with
    | some d => pure d
    | none => throw .valueError
  readVariableSeries fs (pathToRun ++ "/" ++ idir ++ "/" ++ ("FRED." ++ var ++ ".txt"))

/-- Filename selection shared by the `LIST/` getters:
`{variable}-{sim_day}.txt` when a day is requested, else `{variable}.txt`. -/
def listPathFor (pathToRun var : String) (simDay : Option Int) : String :=
  match simDay with
  | some d => pathToRun ++ "/LIST/" ++ (var ++ "-" ++ toString d ++ ".txt")
  | none => pathToRun ++ "/LIST/" ++ (var ++ ".txt")

/-- Embedding of `FREDRun.get_list_variable`: skip the header line, strip each data
line, and coerce every value to float (`pd.Series(arr, dtype="float")`). -/
def getListVariable (fs : FS) (pathToRun var : String) (simDay : Option Int) :
    PyResult (List Rat) := do
  let fname := listPathFor pathToRun var simDay
  if fs.isfile fname = false then throw .fileNotFoundError
  else
    mapPyResult (fun line =>
      match pyFloat? (pyStrip line) with
      | some q => pure q
      | none => throw .valueError) ((fs.read fname).drop 1)

/-- Embedding of `FREDRun.get_table_variable`: skip the header line; each data line is
`key, value = line.strip().split(",")` (exactly two fields) and the *raw
value string* is stored in a dict (later duplicate keys overwrite). -/
def getTableVariable (fs : FS) (pathToRun var : String) (simDay : Option Int) :
    PyResult (List (String × String)) := do
  let fname := listPathFor pathToRun var simDay
  if fs.isfile fname = false then throw .fileNotFoundError
  else
    ((fs.read fname).drop 1).foldlM (fun d line =>
      match pySplitOn ',' (pyStrip line) with
      | [key, value] => pure (assocUpdate d key value)
      | _ => throw .valueError) []

/-- A list-table cell: a single raw value string (`long` layout) or the
ordered list of raw value strings of one key (`wide` layout). -/
inductive LTVal where
  | scalar (v : String)
  | vlist (vs : List String)
  deriving DecidableEq, Repr

/-- The per-line loop of `FREDRun.get_list_table_variable`, carrying the
accumulated `(index, data)` rows.  The layout check sits *inside* the loop,
exactly as in the source. -/
def listTableRows (format : String) : List String → List (String × LTVal) →
    PyResult (List (String × LTVal))
  | [], rows => pure rows
  | line :: rest, rows =>
    match pySplitOn ',' (pyStrip line) with
    | [] => throw .indexError -- unreachable: a split yields at least one field
    | key :: values =>
      if format = "long" then
        listTableRows format rest (rows ++ values.map (fun v => (key, LTVal.scalar v)))
      else if format = "wide" then
        listTableRows format rest (rows ++ [(key, LTVal.vlist values)])
      else throw .valueError

/-- Embedding of `FREDRun.get_list_table_variable`. -/
def getListTableVariable (fs : FS) (pathToRun var : String) (simDay : Option Int)
    (format : String) : PyResult (List (String × LTVal)) := do
  let fname := listPathFor pathToRun var simDay
  if fs.isfile fname = false then throw .fileNotFoundError
  else listTableRows format ((fs.read fname).drop 1) []

/-! ### Job-level queries (`job.py`) -/

/-- Embedding of `job._INTERVAL_DIRS`: job directory storing output for different
intervals. -/
def INTERVAL_DIRS : List (String × String) :=
  [("daily", "OUT/PLOT/DAILY"), ("weekly", "OUT/PLOT/WEEKLY")]

/-- Embedding of `FREDJob._interval_path_component`: `ValueError` for an interval
outside the table, `ValueError` again when the interval's directory was not
generated for this job. -/
def intervalPathComponent (fs : FS) (pathToJob interval : String) : PyResult String := do
  let d ←
    match List.lookup interval INTERVAL_DIRS with
    | some d => pure d
    | none => throw .valueError
  if fs.isdir (pathToJob ++ "/" ++ d) = false then throw .valueError
  else pure d

/-- A wide plot table: the retained `RUN*` column labels and, for each sim
day in file order, the row of retained cells.  Cells are kept in their raw
file form (`α = String` when read from disk); the reshape below is
independent of the cell type, as is `pd.wide_to_long`. -/
structure WideTable (α : Type) where
  cols : List String
  rows : List (List α)
  deriving DecidableEq, Repr

/-- Model of `re.match("RUN[0-9]+", label)`: a *prefix* match — `RUN` followed by at
least one digit, then anything. -/
def runLabelMatch (label : String) : Bool :=
  match label.data with
  | 'R' :: 'U' :: 'N' :: c :: _ => c.isDigit
  | _ => false

/-- Embedding of `FREDJob._read_plot_data_file`: re-resolve the interval path component,
check existence, then read the CSV keeping only the `RUN*` columns; the row
index is the 0-based file order.  (Pandas' numeric dtype inference is a
library concern orthogonal to the logic under verification: cells are kept
as raw field strings; a field missing from a short line is modelled as
`""` where pandas would produce a NaN.  An entirely empty file, on which
`pd.read_csv` raises, is modelled as `ValueError`.) -/
def readPlotDataFile (fs : FS) (pathToJob interval filename : String) :
    PyResult (WideTable String) := do
  let ipc ← intervalPathComponent fs pathToJob interval
  let filepath := pathToJob ++ "/" ++ ipc ++ "/" ++ filename
  if fs.isfile filepath = false then throw .fileNotFoundError
  else
    match fs.read filepath with
    | [] => throw .valueError
    | header :: body =>
      let keep := (pySplitOn ',' header).enum.filter (fun jl => runLabelMatch jl.2)
      pure { cols := keep.map (fun jl => jl.2)
             rows := body.map (fun line =>
               let fields := pySplitOn ',' line
               keep.map (fun jl => fields.getD jl.1 "")) }

/-- The run-number extraction of `pd.wide_to_long` with stub `"RUN"` and
the default suffix `\d+`: the digits after the stub (the non-digit prefix
of the label is stripped). -/
def parseRunSuffix (label : String) : Option Nat :=
  match label.data with
  | 'R' :: 'U' :: 'N' :: ds =>
    if ds ≠ [] ∧ ds.all Char.isDigit then some (digitsToNat ds) else none
  | _ => none

/-- Ascending lexicographic comparison on the `(run, sim_day)` key of a
long-format row — the order produced by `.swaplevel().sort_index()`. -/
def rowLe (a b : Nat × Nat × α) : Bool :=
  decide (a.1 < b.1 ∨ (a.1 = b.1 ∧ a.2.1 ≤ b.2.1))

/-- Strictly ascending lexicographic order on the `(run, sim_day)` key of a
long-format row: first by run, then by sim day. -/
def runDayLt (a b : Nat × Nat × α) : Prop :=
  a.1 < b.1 ∨ (a.1 = b.1 ∧ a.2.1 < b.2.1)

/-- Insert into a sorted list, before the first element that is not
smaller — together with `insertionSort` this is a stable ascending sort,
agreeing with the stable sorts of Python/pandas. -/
def insertSorted (le : α → α → Bool) (x : α) : List α → List α
  | [] => [x]
  | y :: ys => if le x y then x :: y :: ys else y :: insertSorted le x ys

/-- Stable insertion sort. -/
def insertionSort (le : α → α → Bool) : List α → List α
  | [] => []
  | x :: xs => insertSorted le x (insertionSort le xs)

/-- The melt step of `pd.wide_to_long` on a wide plot table, column-major:
each column whose label matches the stub pattern contributes one
`(run, sim_day, value)` row per sim day; a non-matching column contributes
nothing (after `_read_plot_data_file` filtering, every remaining column is
expected to match).  `j` is the 0-based position of the column in the
table, used to fetch its cells. -/
def meltFrom [Inhabited α] (rows : List (List α)) : Nat → List String →
    List (Nat × Nat × α)
  | _, [] => []
  | j, label :: rest =>
    (match parseRunSuffix label with
     | some r => rows.enum.map (fun ir => (r, ir.1, ir.2.getD j default))
     | none => []) ++ meltFrom rows (j + 1) rest

/-- Embedding of `FREDJob._convert_wide_plot_table_to_long`: melt the run columns, then
sort by `(run, sim_day)` ascending (`.swaplevel().sort_index()`).  The
`varname` argument of the source only renames the value column and has no
positional counterpart here. -/
def convertWidePlotTableToLong [Inhabited α] (t : WideTable α) :
    List (Nat × Nat × α) :=
  insertionSort rowLe (meltFrom t.rows 0 t.cols)

/-- The rows contributed by the run of index-`j` column `RUN{j+1}`: one
`(run, sim_day, value)` triple per sim day, in file order. -/
def runBlock [Inhabited α] (rows : List (List α)) (j : Nat) : List (Nat × Nat × α) :=
  rows.enum.map (fun ir => (j + 1, ir.1, ir.2.getD j default))

/-- The long table of a well-formed wide table whose `k` columns are
labelled `RUN1..RUNk`: runs `1..k` in ascending order, each with its sim
days in ascending order. -/
def directLong [Inhabited α] (rows : List (List α)) (k : Nat) : List (Nat × Nat × α) :=
  (List.range k).flatMap (runBlock rows)

/-- Value lookup in a long table: the value of the first row carrying the
given run and sim day (the cell lookup a long-to-wide pivot performs). -/
def getLongVal [Inhabited α] (long : List (Nat × Nat × α)) (r i : Nat) : α :=
  match long with
  | [] => default
  | (r', i', v) :: rest => if r' = r ∧ i' = i then v else getLongVal rest r i

/-- Modelled from the spec: the repository provides no `long_to_wide`
inverse; spec §3 ("Conversion between the two must preserve every value and
be a well-defined pure function of the wide table") and §8 property 1
require an inverse reshape for a wide table with columns `RUN1..RUNk` and
`n` rows.  It is modelled as the pivot recovering the `n × k` value matrix
from the long rows. -/
def longToWide [Inhabited α] (n k : Nat) (long : List (Nat × Nat × α)) : List (List α) :=
  (List.range n).map (fun i => (List.range k).map (fun j => getLongVal long (j + 1) i))

/-- Embedding of `FREDJob._validate_table_format`. -/
def validateTableFormat (format : String) : PyResult Unit :=
  if format = "wide" ∨ format = "long" then .ok () else .error .valueError

/-- A job-level plot table in the requested layout. -/
inductive PlotTable (α : Type) where
  | wide (t : WideTable α)
  | long (rows : List (Nat × Nat × α))
  deriving DecidableEq, Repr

/-- The part of `FREDJob.get_job_state_table` after the data filename has
been composed: interval path resolution (inside the `os.path.join`),
condition availability check, file existence check (a `ValueError` in the
source), read, format validation, and the optional long conversion. -/
def jobStateTableRest (fs : FS) (pathToJob : String) (conditions : List String)
    (condition interval format fname : String) : PyResult (PlotTable String) := do
  let ipc ← intervalPathComponent fs pathToJob interval
  let pathToFile := pathToJob ++ "/" ++ ipc ++ "/" ++ fname
  if conditions.contains condition = false then throw .valueError
  else if fs.isfile pathToFile = false then throw .valueError
  else do
    let df ← readPlotDataFile fs pathToJob interval fname
    let _ ← validateTableFormat format
    if format = "long" then pure (.long (convertWidePlotTableToLong df))
    else pure (.wide df)

/-- Embedding of `FREDJob.get_job_state_table`: validate `count_type`, build the
filename `{condition}.{prefix}{state}.csv`, and proceed. -/
def getJobStateTable (fs : FS) (pathToJob : String) (conditions : List String)
    (condition state count_type interval format : String) :
    PyResult (PlotTable String) := do
  let pre ←
    match List.lookup count_type countTypes with
    | some p => pure p
    | none => throw .valueError
  jobStateTableRest fs pathToJob conditions condition interval format
    (condition ++ "." ++ pre ++ state ++ ".csv")

/-! ### Registry writer (`insert.py`) -/

/-- Python `max` over a list known to be nonempty (the empty case, on which
Python raises, is given an arbitrary value and is never reached). -/
def pyMaxInt (l : List Int) : Int :=
  match l with
  | [] => 0
  | x :: xs => xs.foldl max x

/-- Embedding of `insert._write_local_keys` restricted to its observable output: the
lines written to `KEY` (entries sorted by ascending job id, stable, one
`"{key} {id}"` line each) and the single line written to `ID`
(`max(id)+1`, or `1` for an empty mapping). -/
def writeLocalKeys (jobKeys : List (String × Int)) : List String × String :=
  let sorted := insertionSort (fun a b => decide (a.2 ≤ b.2)) jobKeys
  let keyLines := sorted.map (fun kv => kv.1 ++ " " ++ toString kv.2)
  let idLine :=
    if sorted = [] then "1"
    else toString (pyMaxInt (sorted.map (fun kv => kv.2)) + 1)
  (keyLines, idLine)

/-! ### Snapshot dating (`snapshot.py` / `job.py`) -/

/-- A calendar date as parsed by `dt.datetime.strptime(s, "%Y-%m-%d")`. -/
abbrev YmdDate := Nat × Nat × Nat

/-- Model of `strptime(s, "%Y-%m-%d").date()`: three dash-separated all-digit
fields with the month in `1..12` and the day in `1..31`; anything else
raises `ValueError`, modelled as `none`.  (The full calendar validation of
`strptime` is not needed by any claim.) -/
def strptimeYmd (s : String) : Option YmdDate :=
  match pySplitOn '-' s with
  | [y, m, d] =>
    if y.data ≠ [] ∧ y.data.all Char.isDigit ∧
        m.data ≠ [] ∧ m.data.all Char.isDigit ∧
        d.data ≠ [] ∧ d.data.all Char.isDigit ∧
        1 ≤ digitsToNat m.data ∧ digitsToNat m.data ≤ 12 ∧
        1 ≤ digitsToNat d.data ∧ digitsToNat d.data ≤ 31 then
      some (digitsToNat y.data, digitsToNat m.data, digitsToNat d.data)
    else none
  | _ => none

/-- Embedding of `Snapshot.date`: when the filename has exactly three dot-separated
segments, parse the middle one as the snapshot date (a malformed middle
segment propagates `strptime`'s `ValueError`); otherwise the date is
`None` and a warning is issued — the boolean records whether the warning
fired. -/
def snapshotDate (filename : String) : PyResult (Option YmdDate × Bool) :=
  let segs := pySplitOn '.' filename
  if segs.length = 3 then
    match strptimeYmd (segs.getD 1 "") with
    | some d => .ok (some d, false)
    | none => .error .valueError
  else .ok (none, true)

/-- Model of `re.match(r'snapshot.*\.tgz$', f)`: prefix `snapshot`, suffix `.tgz`,
and enough length for the two not to overlap. -/
def matchesSnapshotPattern (f : String) : Bool :=
  "snapshot".data.isPrefixOf f.data ∧
    ".tgz".data.reverse.isPrefixOf f.data.reverse ∧ 12 ≤ f.data.length

/-- Embedding of `FREDJob._parse_snapshots`: the snapshot archive filenames among the
entries of the job's `OUT` directory. -/
def parseSnapshots (files : List String) : List String :=
  files.filter matchesSnapshotPattern

/-- Embedding of `FREDJob._set_snapshot_map`: build the date-keyed snapshot dictionary,
skipping every snapshot whose date is `None`; each `Snapshot` object is
represented by its filename. -/
def setSnapshotMap (files : List String) : PyResult (List (YmdDate × String)) :=
  (parseSnapshots files).foldlM (fun m f => do
    match ← snapshotDate f with
    | (some d, _) => pure (assocUpdate m d f)
    | (none, _) => pure m) []

/-! ### Concrete file-system fixtures for the resolver claims -/

/-- A store rooted at `/res` that is a directory but holds nothing else. -/
def fsOnlyStore : FS :=
  { isdir := fun p => p = "/res"
    isfile := fun _ => false
    read := fun _ => [] }

/-- The environment with neither variable set. -/
def envEmpty : Env := ⟨none, none⟩

/-- The `kwargs` dictionary carrying only `FRED_RESULTS="/res"`. -/
def kwOnlyResults : Kwargs :=
  ⟨some "/res", none, none, none, none, none, none⟩

/-- An entirely empty file system. -/
def fsEmpty : FS :=
  { isdir := fun _ => false
    isfile := fun _ => false
    read := fun _ => [] }

/-- A job at `/job` with a snapshot manifest whose last line names
`snapshot.2020-03-01.tgz`; the dated snapshots for 2020-03-01 and
2020-01-22 both exist on disk. -/
def fsSnapJob : FS :=
  { isdir := fun p => p = "/job"
    isfile := fun p =>
      p = "/job/OUT/completed-snapshots.txt" ∨
      p = "/job/OUT/snapshot.2020-03-01.tgz" ∨
      p = "/job/OUT/snapshot.2020-01-22.tgz"
    read := fun p =>
      if p = "/job/OUT/completed-snapshots.txt" then
        ["snapshot.2020-02-15.tgz", "snapshot.2020-03-01.tgz"]
      else [] }

/-- The `kwargs` dictionary carrying only `PATH_TO_JOB="/job"`. -/
def kwJobPath : Kwargs :=
  ⟨none, none, some "/job", none, none, none, none⟩

/-- The `kwargs` dictionary carrying only `PATH_TO_RUN="/nowhere/RUN1"`. -/
def kwRunPath : Kwargs :=
  ⟨none, none, none, some "/nowhere/RUN1", none, none, none⟩

/-- The `kwargs` dictionary carrying only `PATH_TO_SNAPSHOT="/nowhere/snapshot.tgz"`. -/
def kwSnapshotPath : Kwargs :=
  ⟨none, none, none, none, some "/nowhere/snapshot.tgz", none, none⟩

/-- A run directory at `/run` whose `WEEKLY` subdirectory holds a
cumulative state file and a global-variable file. -/
def fsRunWeekly : FS :=
  { isdir := fun _ => false
    isfile := fun p =>
      p = "/run/WEEKLY/INF.totE.txt" ∨ p = "/run/WEEKLY/FRED.X.txt"
    read := fun p =>
      if p = "/run/WEEKLY/INF.totE.txt" then ["0 5", "1 7"]
      else if p = "/run/WEEKLY/FRED.X.txt" then ["0 2"]
      else [] }

/-- A job at `/job` for which both interval plot directories were
generated. -/
def fsJobIntervals : FS :=
  { isdir := fun p => p = "/job/OUT/PLOT/DAILY" ∨ p = "/job/OUT/PLOT/WEEKLY"
    isfile := fun _ => false
    read := fun _ => [] }

/-- A run holding the list-table variable file of spec §8 property 9. -/
def fsListTable : FS :=
  { isdir := fun _ => false
    isfile := fun p => p = "/run/LIST/V.txt"
    read := fun p => if p = "/run/LIST/V.txt" then ["V", "k1,1,2", "k2,3"] else [] }

/-- A run with a table variable holding the raw token `1.50` and a list
variable holding the token `2`. -/
def fsRawValue : FS :=
  { isdir := fun _ => false
    isfile := fun p => p = "/run/LIST/T.txt" ∨ p = "/run/LIST/L.txt"
    read := fun p =>
      if p = "/run/LIST/T.txt" then ["T", "a,1.50"]
      else if p = "/run/LIST/L.txt" then ["L", "2"]
      else [] }

example : pyInt? " 42" = some 42 := by decide
example : pyInt? "1.5" = none := by decide
example : pyFloat? "1.50" = some (3/2 : Rat) := by
  simp +decide [pyFloat?, parseUnsignedFloat, parseExponent, digitsToNat, pyStripChars,
    List.takeWhile, List.dropWhile]
  norm_num
example : valueStrToValue "007" = .int 7 := by decide
example : pySplitWs " a  b " = ["a", "b"] := by decide
example : pySplitOn ',' "k1,1,2" = ["k1", "1", "2"] := by decide

/-! ## Claims -/

/-- C1 (code bug).  When none of `PATH_TO_JOB`, `job_id`, `job_key` is
supplied (here with a valid `FRED_RESULTS`), `_path_to_job` does *not* fail
with the documented `ValueError`: the source builds `ValueError(msg)`
without raising it, falls through, and fails with `UnboundLocalError` when
it evaluates `str(job_id)`. -/
theorem job_resolver_without_identifiers_hits_unbound_local :
    pathToJob fsOnlyStore envEmpty kwOnlyResults = .error .unboundLocalError ∧
    PyErr.unboundLocalError ≠ PyErr.valueError := by
  refine ⟨rfl, by decide⟩

/-- C3 (code bug).  `_path_to_snapshot` never consults its `date`
argument: the guard `"date" in kwargs.keys()` is unsatisfiable because
`date` is a named parameter, so even with `date=2020-01-22` the resolver
returns the last manifest entry (`snapshot.2020-03-01.tgz`) although the
dated snapshot `snapshot.2020-01-22.tgz` exists. -/
theorem snapshot_resolver_ignores_date :
    pathToSnapshot fsSnapJob envEmpty (some "2020-01-22") kwJobPath =
      .ok "/job/OUT/snapshot.2020-03-01.tgz" ∧
    fsSnapJob.isfile "/job/OUT/snapshot.2020-01-22.tgz" = true ∧
    ("/job/OUT/snapshot.2020-03-01.tgz" : String) ≠
      "/job/OUT/snapshot.2020-01-22.tgz" := by
  refine ⟨rfl, by decide, by decide⟩

/-- C4 (code bug).  With an explicit `PATH_TO_RUN` (resp.
`PATH_TO_SNAPSHOT`) that does not exist on disk, the resolvers return the
nonexistent path instead of raising `FileNotFoundError`: in both sources
the exception is constructed but never raised. -/
theorem explicit_path_resolvers_return_nonexistent_paths :
    pathToRun fsEmpty envEmpty 1 kwRunPath = .ok "/nowhere/RUN1" ∧
    fsEmpty.isdir "/nowhere/RUN1" = false ∧
    pathToSnapshot fsEmpty envEmpty none kwSnapshotPath =
      .ok "/nowhere/snapshot.tgz" ∧
    fsEmpty.isfile "/nowhere/snapshot.tgz" = false := by
  refine ⟨rfl, by decide, rfl, by decide⟩

/-- C2 (code bug).  The run-level interval table spells its second key
`"Weekly"`, so run-level `get_state` and `get_variable` reject the
documented value `"weekly"` with `ValueError` even when the `WEEKLY` data
exists, while accepting `"Weekly"`; the job-level queries accept the
lower-case `"daily"`/`"weekly"` as specified. -/
theorem run_level_interval_weekly_rejected :
    getState fsRunWeekly "/run" "INF" "E" "cumulative" "weekly" = .error .valueError ∧
    getState fsRunWeekly "/run" "INF" "E" "cumulative" "Weekly" = .ok [5, 7] ∧
    getVariable fsRunWeekly "/run" "X" "weekly" = .error .valueError ∧
    getVariable fsRunWeekly "/run" "X" "Weekly" = .ok [(2 : Rat)] ∧
    intervalPathComponent fsJobIntervals "/job" "weekly" = .ok "OUT/PLOT/WEEKLY" ∧
    intervalPathComponent fsJobIntervals "/job" "daily" = .ok "OUT/PLOT/DAILY" := by
  refine ⟨rfl, rfl, rfl, rfl, rfl, rfl⟩

/-! ### Helper lemmas -/

theorem string_append_empty (a : String) : a ++ "" = a := by
  cases a with
  | mk data =>
    show String.mk (data ++ []) = String.mk data
    rw [List.append_nil]

theorem pyResult_pure_bind (a : α) (f : α → PyResult β) :
    (pure a : PyResult α) >>= f = f a := rfl

theorem pyResult_error_bind (e : PyErr) (f : α → PyResult β) :
    (Except.error e : PyResult α) >>= f = .error e := rfl

theorem lookup_countTypes_eq_none (ct : String)
    (h1 : ct ≠ "count") (h2 : ct ≠ "new") (h3 : ct ≠ "cumulative") :
    List.lookup ct countTypes = none := by
  have e1 : (ct == "count") = false := beq_eq_false_iff_ne.mpr h1
  have e2 : (ct == "new") = false := beq_eq_false_iff_ne.mpr h2
  have e3 : (ct == "cumulative") = false := beq_eq_false_iff_ne.mpr h3
  simp [countTypes, List.lookup, e1, e2, e3]

/-- C6 (confirmed).  For both the run-level `get_state` and the
job-level `get_job_state_table`, the three count types select the data
file whose name layers the prefix `""` / `"new"` / `"tot"` in front of the
state name, and any other `count_type` fails with `ValueError`. -/
theorem count_type_prefix_selection (fs : FS) (p pj c s iv d fmt : String)
    (conds : List String)
    (hiv : List.lookup iv intervalDirs = some d) :
    (getState fs p c s "count" iv =
      readStateSeries fs (p ++ "/" ++ d ++ "/" ++ (c ++ "." ++ s ++ ".txt"))) ∧
    (getState fs p c s "new" iv =
      readStateSeries fs (p ++ "/" ++ d ++ "/" ++ (c ++ "." ++ "new" ++ s ++ ".txt"))) ∧
    (getState fs p c s "cumulative" iv =
      readStateSeries fs (p ++ "/" ++ d ++ "/" ++ (c ++ "." ++ "tot" ++ s ++ ".txt"))) ∧
    (∀ ct, ct ≠ "count" → ct ≠ "new" → ct ≠ "cumulative" →
      getState fs p c s ct iv = .error .valueError) ∧
    (getJobStateTable fs pj conds c s "count" iv fmt =
      jobStateTableRest fs pj conds c iv fmt (c ++ "." ++ s ++ ".csv")) ∧
    (getJobStateTable fs pj conds c s "new" iv fmt =
      jobStateTableRest fs pj conds c iv fmt (c ++ "." ++ "new" ++ s ++ ".csv")) ∧
    (getJobStateTable fs pj conds c s "cumulative" iv fmt =
      jobStateTableRest fs pj conds c iv fmt (c ++ "." ++ "tot" ++ s ++ ".csv")) ∧
    (∀ ct, ct ≠ "count" → ct ≠ "new" → ct ≠ "cumulative" →
      getJobStateTable fs pj conds c s ct iv fmt = .error .valueError) := by
  refine ⟨?_, ?_, ?_, ?_, ?_, ?_, ?_, ?_⟩
  · simp only [getState, show List.lookup "count" countTypes = some "" from rfl,
      pyResult_pure_bind, hiv, string_append_empty]
  · simp only [getState, show List.lookup "new" countTypes = some "new" from rfl,
      pyResult_pure_bind, hiv]
  · simp only [getState, show List.lookup "cumulative" countTypes = some "tot" from rfl,
      pyResult_pure_bind, hiv]
  · intro ct h1 h2 h3
    simp only [getState, lookup_countTypes_eq_none ct h1 h2 h3]
    rfl
  · simp only [getJobStateTable, show List.lookup "count" countTypes = some "" from rfl,
      pyResult_pure_bind, string_append_empty]
  · simp only [getJobStateTable, show List.lookup "new" countTypes = some "new" from rfl,
      pyResult_pure_bind]
  · simp only [getJobStateTable,
      show List.lookup "cumulative" countTypes = some "tot" from rfl, pyResult_pure_bind]
  · intro ct h1 h2 h3
    simp only [getJobStateTable, lookup_countTypes_eq_none ct h1 h2 h3]
    rfl

/-- Witness for C6 at a concrete interval. -/
theorem count_type_prefix_selection_witness :
    getState fsRunWeekly "/run" "INF" "E" "cumulative" "Weekly" =
      readStateSeries fsRunWeekly
        ("/run" ++ "/" ++ "WEEKLY" ++ "/" ++ ("INF" ++ "." ++ "tot" ++ "E" ++ ".txt")) ∧
    getState fsRunWeekly "/run" "INF" "E" "bogus" "Weekly" = .error .valueError :=
  ⟨(count_type_prefix_selection fsRunWeekly "/run" "/job" "INF" "E" "Weekly" "WEEKLY"
      "long" [] rfl).2.2.1,
   (count_type_prefix_selection fsRunWeekly "/run" "/job" "INF" "E" "Weekly" "WEEKLY"
      "long" [] rfl).2.2.2.1 "bogus" (by decide) (by decide) (by decide)⟩

/-- C7 (confirmed).  On a list-table file with data lines `k1,1,2` and
`k2,3`, the `long` layout yields `(k1,1),(k1,2),(k2,3)` with the key
repeated per value, the `wide` layout yields one row per key with the
ordered value list, and every other layout fails with `ValueError`. -/
theorem list_table_layouts :
    getListTableVariable fsListTable "/run" "V" none "long" =
      .ok [("k1", .scalar "1"), ("k1", .scalar "2"), ("k2", .scalar "3")] ∧
    getListTableVariable fsListTable "/run" "V" none "wide" =
      .ok [("k1", .vlist ["1", "2"]), ("k2", .vlist ["3"])] ∧
    (∀ fmt, fmt ≠ "long" → fmt ≠ "wide" →
      getListTableVariable fsListTable "/run" "V" none fmt = .error .valueError) := by
  refine ⟨rfl, rfl, ?_⟩
  intro fmt h1 h2
  show listTableRows fmt ["k1,1,2", "k2,3"] [] = .error .valueError
  simp only [listTableRows, show pySplitOn ',' (pyStrip "k1,1,2") = ["k1", "1", "2"] from rfl,
    if_neg h1, if_neg h2]
  rfl

/-- Witness for C7 at the concrete layout `"tall"`. -/
theorem list_table_layouts_witness :
    getListTableVariable fsListTable "/run" "V" none "tall" = .error .valueError :=
  list_table_layouts.2.2 "tall" (by decide) (by decide)

theorem mem_assocUpdate {κ β : Type} [DecidableEq κ] {l : List (κ × β)} {k : κ} {v : β}
    {kv : κ × β} (h : kv ∈ assocUpdate l k v) : kv ∈ l ∨ kv = (k, v) := by
  unfold assocUpdate at h
  split at h
  · rcases List.mem_map.mp h with ⟨kv', hkv', heq⟩
    by_cases hk : kv'.1 = k
    · right
      rw [if_pos hk] at heq
      exact heq.symm
    · left
      rw [if_neg hk] at heq
      exact heq ▸ hkv'
  · rcases List.mem_append.mp h with h' | h'
    · exact Or.inl h'
    · exact Or.inr (List.mem_singleton.mp h')

theorem tableFold_mem {lines : List String} :
    ∀ {acc rows : List (String × String)},
      (lines.foldlM (fun d line =>
        match pySplitOn ',' (pyStrip line) with
        | [key, value] => pure (assocUpdate d key value)
        | _ => throw .valueError) acc : PyResult (List (String × String))) = .ok rows →
      ∀ kv ∈ rows, kv ∈ acc ∨
        ∃ line ∈ lines, pySplitOn ',' (pyStrip line) = [kv.1, kv.2] := by
  induction lines with
  | nil =>
    intro acc rows h kv hm
    simp only [List.foldlM_nil] at h
    cases h
    exact Or.inl hm
  | cons line rest ih =>
    intro acc rows h kv hm
    simp only [List.foldlM_cons] at h
    revert h
    cases hsplit : pySplitOn ',' (pyStrip line) with
    | nil => intro h; cases h
    | cons a tl =>
      cases tl with
      | nil => intro h; cases h
      | cons b tl' =>
        cases tl' with
        | nil =>
          intro h
          rw [pyResult_pure_bind] at h
          rcases ih h kv hm with hacc | ⟨l', hl', hsp⟩
          · rcases mem_assocUpdate hacc with h' | h'
            · exact Or.inl h'
            · refine Or.inr ⟨line, List.mem_cons_self .., ?_⟩
              rw [hsplit, h']
          · exact Or.inr ⟨l', List.mem_cons_of_mem _ hl', hsp⟩
        | cons c tl'' => intro h; cases h

theorem splitBy_ne_nil (p : Char → Bool) (cs : List Char) : splitBy p cs ≠ [] := by
  induction cs with
  | nil => simp [splitBy]
  | cons c cs ih =>
    rw [splitBy]
    split
    · simp
    · split <;> simp

theorem pySplitOn_ne_nil (sep : Char) (s : String) : pySplitOn sep s ≠ [] := by
  simp [pySplitOn, splitBy_ne_nil]

theorem pyResult_ok_bind (a : α) (f : α → PyResult β) :
    (Except.ok a : PyResult α) >>= f = f a := rfl

theorem listTableRows_mem {fmt : String} :
    ∀ {lines : List String} {acc rows : List (String × LTVal)},
      listTableRows fmt lines acc = .ok rows →
      ∀ kv ∈ rows, kv ∈ acc ∨
        ∃ line ∈ lines, ∃ vs, pySplitOn ',' (pyStrip line) = kv.1 :: vs ∧
          (match kv.2 with
           | .scalar s => s ∈ vs
           | .vlist l => l = vs) := by
  intro lines
  induction lines with
  | nil =>
    intro acc rows h kv hm
    cases h
    exact Or.inl hm
  | cons line rest ih =>
    intro acc rows h kv hm
    obtain ⟨key, values, hsplit⟩ :=
      List.exists_cons_of_ne_nil (pySplitOn_ne_nil ',' (pyStrip line))
    simp only [listTableRows, hsplit] at h
    by_cases hl : fmt = "long"
    · rw [if_pos hl] at h
      rcases ih h kv hm with hacc | ⟨l', hl', vs, hsp, hv⟩
      · rcases List.mem_append.mp hacc with h' | h'
        · exact Or.inl h'
        · rcases List.mem_map.mp h' with ⟨v, hv', heq⟩
          refine Or.inr ⟨line, List.mem_cons_self .., values, ?_, ?_⟩
          · rw [hsplit, ← heq]
          · rw [← heq]
            exact hv'
      · exact Or.inr ⟨l', List.mem_cons_of_mem _ hl', vs, hsp, hv⟩
    · rw [if_neg hl] at h
      by_cases hw : fmt = "wide"
      · rw [if_pos hw] at h
        rcases ih h kv hm with hacc | ⟨l', hl', vs, hsp, hv⟩
        · rcases List.mem_append.mp hacc with h' | h'
          · exact Or.inl h'
          · rcases List.mem_singleton.mp h' with rfl
            exact Or.inr ⟨line, List.mem_cons_self .., values, by rw [hsplit], rfl⟩
        · exact Or.inr ⟨l', List.mem_cons_of_mem _ hl', vs, hsp, hv⟩
      · rw [if_neg hw] at h
        cases h

theorem mapPyResult_forall₂ {α β : Type} {f : α → PyResult β} {R : α → β → Prop}
    (hf : ∀ a b, f a = .ok b → R a b) :
    ∀ {l : List α} {out : List β}, mapPyResult f l = .ok out → List.Forall₂ R l out := by
  intro l
  induction l with
  | nil =>
    intro out h
    cases h
    exact List.Forall₂.nil
  | cons x xs ih =>
    intro out h
    rw [mapPyResult] at h
    revert h
    cases hx : f x with
    | error e => intro h; cases h
    | ok y =>
      intro h
      rw [pyResult_ok_bind] at h
      revert h
      cases hys : mapPyResult f xs with
      | error e =>
        intro h
        rw [pyResult_error_bind] at h
        cases h
      | ok ys =>
        intro h
        rw [pyResult_ok_bind] at h
        rw [show (pure (y :: ys) : PyResult (List β)) = Except.ok (y :: ys) from rfl] at h
        cases h
        exact List.Forall₂.cons (hf x y hx) (ih hys)

/-- C10 (confirmed).  `get_table_variable` and `get_list_table_variable`
return every parsed value as the raw string taken from the file (each
returned pair's value is literally a comma-separated field of one of the
data lines, untouched by any int/float coercion), whereas
`get_list_variable` coerces every value in its file to float: its result
is exactly the float parse of each stripped data line. -/
theorem table_values_raw_list_values_float :
    (∀ (fs : FS) (p v : String) (d : Option Int) rows,
      getTableVariable fs p v d = .ok rows →
      ∀ kv ∈ rows, ∃ line ∈ (fs.read (listPathFor p v d)).drop 1,
        pySplitOn ',' (pyStrip line) = [kv.1, kv.2]) ∧
    (∀ (fs : FS) (p v : String) (d : Option Int) (fmt : String) rows,
      getListTableVariable fs p v d fmt = .ok rows →
      ∀ kv ∈ rows, ∃ line ∈ (fs.read (listPathFor p v d)).drop 1,
        ∃ vs, pySplitOn ',' (pyStrip line) = kv.1 :: vs ∧
          (match kv.2 with
           | .scalar s => s ∈ vs
           | .vlist l => l = vs)) ∧
    (∀ (fs : FS) (p v : String) (d : Option Int) vals,
      getListVariable fs p v d = .ok vals →
      List.Forall₂ (fun line q => pyFloat? (pyStrip line) = some q)
        ((fs.read (listPathFor p v d)).drop 1) vals) := by
  refine ⟨?_, ?_, ?_⟩
  · intro fs p v d rows h kv hm
    by_cases hf : fs.isfile (listPathFor p v d) = false
    · simp only [getTableVariable, if_pos hf] at h
      cases h
    · simp only [getTableVariable, if_neg hf] at h
      rcases tableFold_mem h kv hm with hacc | hline
      · cases hacc
      · exact hline
  · intro fs p v d fmt rows h kv hm
    by_cases hf : fs.isfile (listPathFor p v d) = false
    · simp only [getListTableVariable, if_pos hf] at h
      cases h
    · simp only [getListTableVariable, if_neg hf] at h
      rcases listTableRows_mem h kv hm with hacc | hline
      · cases hacc
      · exact hline
  · intro fs p v d vals h
    by_cases hf : fs.isfile (listPathFor p v d) = false
    · simp only [getListVariable, if_pos hf] at h
      cases h
    · simp only [getListVariable, if_neg hf] at h
      refine mapPyResult_forall₂ ?_ h
      intro a b hab
      revert hab
      cases hq : pyFloat? (pyStrip a) with
      | none => intro hab; cases hab
      | some q =>
        intro hab
        have hab' : (Except.ok q : PyResult Rat) = Except.ok b := hab
        cases hab'
        rfl

/-- Witness for C10: the table value `1.50` comes back as the raw string,
and the list variable's values are the float parses of its lines. -/
theorem table_values_raw_list_values_float_witness :
    (∃ line ∈ (fsRawValue.read (listPathFor "/run" "T" none)).drop 1,
      pySplitOn ',' (pyStrip line) = ["a", "1.50"]) ∧
    (∃ vals, getListVariable fsRawValue "/run" "L" none = .ok vals ∧
      List.Forall₂ (fun line q => pyFloat? (pyStrip line) = some q)
        ((fsRawValue.read (listPathFor "/run" "L" none)).drop 1) vals) :=
  ⟨table_values_raw_list_values_float.1 fsRawValue "/run" "T" none
      [("a", "1.50")] rfl ("a", "1.50") (by decide),
   ⟨_, rfl, table_values_raw_list_values_float.2.2 fsRawValue "/run" "L" none _ rfl⟩⟩

theorem snapshotDate_ok_some {f : String} {d : YmdDate} {w : Bool}
    (h : snapshotDate f = .ok (some d, w)) : w = false := by
  unfold snapshotDate at h
  dsimp only at h
  split at h
  · split at h
    · cases h
      rfl
    · cases h
  · simp at h

theorem setSnapshotFold_mem :
    ∀ (fls : List String) (acc m : List (YmdDate × String)),
      (fls.foldlM (fun m f => do
        match ← snapshotDate f with
        | (some d, _) => pure (assocUpdate m d f)
        | (none, _) => pure m) acc : PyResult (List (YmdDate × String))) = .ok m →
      (∀ df ∈ acc, snapshotDate df.2 = .ok (some df.1, false)) →
      ∀ df ∈ m, snapshotDate df.2 = .ok (some df.1, false) := by
  intro fls
  induction fls with
  | nil =>
    intro acc m h hacc
    cases h
    exact hacc
  | cons f rest ih =>
    intro acc m h hacc
    simp only [List.foldlM_cons] at h
    revert h
    cases hd : snapshotDate f with
    | error e =>
      intro h
      rw [show ((Except.error e : PyResult (Option YmdDate × Bool)) >>=
          fun x => match x with
            | (some d, _) => pure (assocUpdate acc d f)
            | (none, _) => pure acc) = Except.error e from rfl] at h
      rw [pyResult_error_bind] at h
      cases h
    | ok x =>
      obtain ⟨opt, w⟩ := x
      cases opt with
      | some d =>
        intro h
        rw [show ((Except.ok (some d, w) : PyResult (Option YmdDate × Bool)) >>=
            fun x => match x with
              | (some d, _) => pure (assocUpdate acc d f)
              | (none, _) => pure acc) = pure (assocUpdate acc d f) from rfl] at h
        rw [show (pure (assocUpdate acc d f) : PyResult (List (YmdDate × String))) =
          Except.ok (assocUpdate acc d f) from rfl] at h
        refine ih (assocUpdate acc d f) m h ?_
        intro df hdf
        rcases mem_assocUpdate hdf with h' | h'
        · exact hacc df h'
        · rw [h']
          rw [hd, snapshotDate_ok_some hd]
      | none =>
        intro h
        rw [show ((Except.ok (none, w) : PyResult (Option YmdDate × Bool)) >>=
            fun x => match x with
              | (some d, _) => pure (assocUpdate acc d f)
              | (none, _) => pure acc) = Except.ok acc from rfl] at h
        exact ih acc m h hacc

/-- C9 (confirmed).  A three-dot-segment snapshot filename such as
`snapshot.2020-01-22.tgz` dates to its embedded ISO date; the legacy
`snapshot.tgz` has date `None` together with a warning, and every entry of
the job's date-keyed snapshot map is keyed by its own snapshot's date —
dateless snapshots are excluded (in particular the map of a job holding
only `snapshot.tgz` is empty). -/
theorem snapshot_dating :
    snapshotDate "snapshot.2020-01-22.tgz" = .ok (some (2020, 1, 22), false) ∧
    snapshotDate "snapshot.tgz" = .ok (none, true) ∧
    setSnapshotMap ["snapshot.tgz"] = .ok [] ∧
    (∀ files m, setSnapshotMap files = .ok m →
      ∀ df ∈ m, snapshotDate df.2 = .ok (some df.1, false)) := by
  refine ⟨rfl, rfl, rfl, ?_⟩
  intro files m h
  refine setSnapshotFold_mem (parseSnapshots files) [] m h ?_
  intro df hdf
  cases hdf

/-- Witness for C9: a job holding both the legacy and one dated snapshot
maps exactly the dated one. -/
theorem snapshot_dating_witness :
    ∃ m, setSnapshotMap ["snapshot.tgz", "snapshot.2020-01-22.tgz"] = .ok m ∧
      ∀ df ∈ m, snapshotDate df.2 = .ok (some df.1, false) :=
  ⟨_, rfl, snapshot_dating.2.2.2 ["snapshot.tgz", "snapshot.2020-01-22.tgz"] _ rfl⟩

theorem perm_insertSorted (le : α → α → Bool) (x : α) (l : List α) :
    (insertSorted le x l).Perm (x :: l) := by
  induction l with
  | nil => exact List.Perm.refl _
  | cons y ys ih =>
    rw [insertSorted]
    split
    · exact List.Perm.refl _
    · exact (ih.cons y).trans (List.Perm.swap x y ys)

theorem perm_insertionSort (le : α → α → Bool) (l : List α) :
    (insertionSort le l).Perm l := by
  induction l with
  | nil => exact List.Perm.refl _
  | cons x xs ih =>
    rw [insertionSort]
    exact (perm_insertSorted le x (insertionSort le xs)).trans (ih.cons x)

theorem chain'_insertSorted (le : α → α → Bool)
    (htot : ∀ a b, le a b = false → le b a = true) (x : α) (l : List α)
    (h : l.Chain' (fun a b => le a b = true)) :
    (insertSorted le x l).Chain' (fun a b => le a b = true) := by
  induction l with
  | nil => simp [insertSorted]
  | cons y ys ih =>
    rw [insertSorted]
    by_cases hxy : le x y = true
    · rw [if_pos hxy]
      exact h.cons hxy
    · rw [if_neg hxy]
      have hyx : le y x = true := htot x y (Bool.not_eq_true _ |>.mp hxy)
      refine List.chain'_cons'.mpr ⟨?_, ih h.tail⟩
      intro z hz
      cases ys with
      | nil =>
        simp [insertSorted] at hz
        rw [← hz]
        exact hyx
      | cons y' ys' =>
        rw [insertSorted] at hz
        by_cases hxy' : le x y' = true
        · rw [if_pos hxy'] at hz
          simp at hz
          rw [← hz]
          exact hyx
        · rw [if_neg hxy'] at hz
          simp at hz
          rw [← hz]
          exact (List.chain'_cons.mp h).1

theorem chain'_insertionSort (le : α → α → Bool)
    (htot : ∀ a b, le a b = false → le b a = true) (l : List α) :
    (insertionSort le l).Chain' (fun a b => le a b = true) := by
  induction l with
  | nil => simp [insertionSort]
  | cons x xs ih =>
    rw [insertionSort]
    exact chain'_insertSorted le htot x _ ih

theorem insertionSort_eq_of_chain' (le : α → α → Bool) (l : List α)
    (h : l.Chain' (fun a b => le a b = true)) : insertionSort le l = l := by
  induction l with
  | nil => rfl
  | cons x xs ih =>
    rw [insertionSort, ih h.tail]
    cases xs with
    | nil => rfl
    | cons y ys => rw [insertSorted, if_pos (List.chain'_cons.mp h).1]

theorem foldl_max_mem : ∀ (xs : List Int) (a : Int),
    xs.foldl max a = a ∨ xs.foldl max a ∈ xs := by
  intro xs
  induction xs with
  | nil => intro a; exact Or.inl rfl
  | cons y ys ih =>
    intro a
    rw [List.foldl_cons]
    rcases ih (max a y) with h | h
    · rcases max_choice a y with hc | hc
      · exact Or.inl (h.trans hc)
      · right
        rw [h, hc]
        exact List.mem_cons_self ..
    · exact Or.inr (List.mem_cons_of_mem y h)

theorem foldl_max_le : ∀ (xs : List Int) (a : Int),
    a ≤ xs.foldl max a ∧ ∀ i ∈ xs, i ≤ xs.foldl max a := by
  intro xs
  induction xs with
  | nil =>
    intro a
    exact ⟨le_refl a, by intro i h; cases h⟩
  | cons y ys ih =>
    intro a
    rw [List.foldl_cons]
    refine ⟨le_trans (le_max_left a y) (ih (max a y)).1, ?_⟩
    intro i hi
    rcases List.mem_cons.mp hi with rfl | hi'
    · exact le_trans (le_max_right a i) (ih (max a i)).1
    · exact (ih (max a y)).2 i hi'

theorem pyMaxInt_spec (l : List Int) (h : l ≠ []) :
    pyMaxInt l ∈ l ∧ ∀ i ∈ l, i ≤ pyMaxInt l := by
  cases l with
  | nil => exact absurd rfl h
  | cons x xs =>
    rw [pyMaxInt]
    constructor
    · rcases foldl_max_mem xs x with h' | h'
      · rw [h']
        exact List.mem_cons_self ..
      · exact List.mem_cons_of_mem x h'
    · intro i hi
      rcases List.mem_cons.mp hi with rfl | hi'
      · exact (foldl_max_le xs i).1
      · exact (foldl_max_le xs x).2 i hi'

theorem pyMaxInt_perm {l₁ l₂ : List Int} (hp : l₁.Perm l₂) (h : l₁ ≠ []) :
    pyMaxInt l₁ = pyMaxInt l₂ := by
  have h₂ : l₂ ≠ [] := by
    intro hc
    exact h (List.Perm.eq_nil (hc ▸ hp))
  have s₁ := pyMaxInt_spec l₁ h
  have s₂ := pyMaxInt_spec l₂ h₂
  exact le_antisymm (s₂.2 _ (hp.mem_iff.mp s₁.1)) (s₁.2 _ (hp.mem_iff.mpr s₂.1))

/-- C8 (confirmed).  After `_write_local_keys`, the `KEY` file holds one
`"<job_key> <job_id>"` line per entry of the mapping, in ascending job-id
order regardless of the mapping's insertion order, and the `ID` file holds
`max(job_id)+1` (`1` for an empty mapping), where `pyMaxInt` is the true
maximum of the ids. -/
theorem registry_write_sorted (jobKeys : List (String × Int)) :
    ∃ sortedKeys : List (String × Int),
      sortedKeys.Perm jobKeys ∧
      (writeLocalKeys jobKeys).1 =
        sortedKeys.map (fun kv => kv.1 ++ " " ++ toString kv.2) ∧
      (sortedKeys.map (fun kv => kv.2)).Chain' (fun a b => a ≤ b) ∧
      (writeLocalKeys jobKeys).2 =
        (if jobKeys = [] then "1"
         else toString (pyMaxInt (jobKeys.map (fun kv => kv.2)) + 1)) ∧
      (jobKeys ≠ [] →
        pyMaxInt (jobKeys.map (fun kv => kv.2)) ∈ jobKeys.map (fun kv => kv.2) ∧
        ∀ i ∈ jobKeys.map (fun kv => kv.2), i ≤ pyMaxInt (jobKeys.map (fun kv => kv.2))) := by
  refine ⟨insertionSort (fun a b => decide (a.2 ≤ b.2)) jobKeys, ?_, rfl, ?_, ?_, ?_⟩
  · exact perm_insertionSort _ jobKeys
  · have hc := chain'_insertionSort (fun a b : String × Int => decide (a.2 ≤ b.2))
      (by
        intro a b hab
        simp only [decide_eq_false_iff_not, not_le] at hab
        simp only [decide_eq_true_eq]
        exact le_of_lt hab) jobKeys
    refine (List.chain'_map _).mpr ?_
    exact hc.imp (by intro a b hab; exact decide_eq_true_eq.mp hab)
  · by_cases hnil : jobKeys = []
    · subst hnil
      rfl
    · rw [if_neg hnil]
      show (if insertionSort (fun a b => decide (a.2 ≤ b.2)) jobKeys = [] then "1"
        else toString
          (pyMaxInt ((insertionSort (fun a b => decide (a.2 ≤ b.2)) jobKeys).map
            (fun kv => kv.2)) + 1)) = _
      have hsne : insertionSort (fun a b => decide (a.2 ≤ b.2)) jobKeys ≠ [] := by
        intro hc
        have hp := perm_insertionSort (fun a b : String × Int => decide (a.2 ≤ b.2)) jobKeys
        rw [hc] at hp
        exact hnil hp.symm.eq_nil
      rw [if_neg hsne]
      have hperm := (perm_insertionSort (fun a b : String × Int => decide (a.2 ≤ b.2))
        jobKeys).map (fun kv => kv.2)
      have hmne : (insertionSort (fun a b => decide (a.2 ≤ b.2)) jobKeys).map
          (fun kv => kv.2) ≠ [] := by
        simpa using hsne
      rw [pyMaxInt_perm hperm hmne]
  · intro hne
    exact pyMaxInt_spec _ (by simpa using hne)

/-- Witness for C8 on a mapping inserted out of id order. -/
theorem registry_write_sorted_witness :
    ∃ sortedKeys : List (String × Int),
      sortedKeys.Perm [("b", 5), ("a", 1)] ∧
      (writeLocalKeys [("b", 5), ("a", 1)]).1 =
        sortedKeys.map (fun kv => kv.1 ++ " " ++ toString kv.2) ∧
      (sortedKeys.map (fun kv => kv.2)).Chain' (fun a b => a ≤ b) ∧
      (writeLocalKeys [("b", 5), ("a", 1)]).2 =
        (if ([("b", 5), ("a", 1)] : List (String × Int)) = [] then "1"
         else toString (pyMaxInt ([("b", 5), ("a", 1)].map (fun kv => kv.2)) + 1)) ∧
      (([("b", 5), ("a", 1)] : List (String × Int)) ≠ [] →
        pyMaxInt ([("b", 5), ("a", 1)].map (fun kv => kv.2)) ∈
          [("b", 5), ("a", 1)].map (fun kv => kv.2) ∧
        ∀ i ∈ [("b", 5), ("a", 1)].map (fun kv => kv.2),
          i ≤ pyMaxInt ([("b", 5), ("a", 1)].map (fun kv => kv.2))) :=
  registry_write_sorted [("b", 5), ("a", 1)]

theorem meltFrom_eq_flatMap [Inhabited α] (rows : List (List α)) :
    ∀ (cols : List String) (j0 : Nat),
      cols.map parseRunSuffix = (List.range' (j0 + 1) cols.length).map some →
      meltFrom rows j0 cols = (List.range' j0 cols.length).flatMap (runBlock rows) := by
  intro cols
  induction cols with
  | nil => intro j0 _; rfl
  | cons label rest ih =>
    intro j0 h
    simp only [List.length_cons, List.range'_succ, List.map_cons] at h
    obtain ⟨h1, h2⟩ := List.cons.inj h
    simp only [meltFrom, h1, List.length_cons, List.range'_succ, List.flatMap_cons]
    exact congrArg (fun l => runBlock rows j0 ++ l) (ih (j0 + 1) h2)

theorem flatMap_runBlock_length [Inhabited α] (rows : List (List α)) :
    ∀ (m s : Nat), ((List.range' s m).flatMap (runBlock rows)).length = m * rows.length := by
  intro m
  induction m with
  | zero => intro s; simp
  | succ m ih =>
    intro s
    rw [List.range'_succ, List.flatMap_cons, List.length_append, ih (s + 1),
      runBlock, List.length_map, List.enum_length]
    ring

theorem chain'_runBlock_enumFrom [Inhabited α] (j : Nat) :
    ∀ (rows : List (List α)) (n : Nat),
      List.Chain' runDayLt
        ((rows.enumFrom n).map (fun ir => (j + 1, ir.1, ir.2.getD j default))) := by
  intro rows
  induction rows with
  | nil => intro n; exact List.chain'_nil
  | cons row rows' ih =>
    intro n
    rw [List.enumFrom_cons, List.map_cons]
    refine List.chain'_cons'.mpr ⟨?_, ih (n + 1)⟩
    intro z hz
    cases rows' with
    | nil => simp at hz
    | cons row' rows'' =>
      rw [List.enumFrom_cons, List.map_cons] at hz
      simp only [List.head?_cons, Option.mem_some_iff] at hz
      rw [← hz]
      exact Or.inr ⟨rfl, Nat.lt_succ_self n⟩

theorem chain'_runBlock [Inhabited α] (rows : List (List α)) (j : Nat) :
    List.Chain' runDayLt (runBlock rows j) :=
  chain'_runBlock_enumFrom j rows 0

theorem mem_runBlock_run [Inhabited α] {rows : List (List α)} {j : Nat}
    {e : Nat × Nat × α} (h : e ∈ runBlock rows j) : e.1 = j + 1 := by
  rw [runBlock] at h
  rcases List.mem_map.mp h with ⟨ir, _, rfl⟩
  rfl

theorem mem_flatMap_run_ge [Inhabited α] {rows : List (List α)}
    {s m : Nat} {e : Nat × Nat × α}
    (h : e ∈ (List.range' s m).flatMap (runBlock rows)) : s + 1 ≤ e.1 := by
  rcases List.mem_flatMap.mp h with ⟨j, hj, he⟩
  rw [mem_runBlock_run he]
  have := (List.mem_range'_1.mp hj).1
  omega

theorem chain'_flatMap_runBlock [Inhabited α] (rows : List (List α)) :
    ∀ (m s : Nat), List.Chain' runDayLt ((List.range' s m).flatMap (runBlock rows)) := by
  intro m
  induction m with
  | zero => intro s; exact List.chain'_nil
  | succ m ih =>
    intro s
    rw [List.range'_succ, List.flatMap_cons]
    refine List.chain'_append.mpr ⟨chain'_runBlock rows s, ih (s + 1), ?_⟩
    intro x hx y hy
    have hx' : x ∈ runBlock rows s := List.mem_of_mem_getLast? hx
    have hy' : y ∈ (List.range' (s + 1) m).flatMap (runBlock rows) :=
      List.mem_of_mem_head? hy
    have h1 := mem_runBlock_run hx'
    have h2 := mem_flatMap_run_ge hy'
    exact Or.inl (by omega)

theorem runDayLt_rowLe {a b : Nat × Nat × α} (h : runDayLt a b) : rowLe a b = true := by
  rw [rowLe, decide_eq_true_eq]
  rcases h with h | ⟨h1, h2⟩
  · exact Or.inl h
  · exact Or.inr ⟨h1, le_of_lt h2⟩

theorem getLongVal_enumFrom_append [Inhabited α] (j : Nat) :
    ∀ (rows : List (List α)) (n i : Nat) (tail : List (Nat × Nat × α)),
      n ≤ i → i < n + rows.length →
      getLongVal
        (((rows.enumFrom n).map (fun ir => (j + 1, ir.1, ir.2.getD j default))) ++ tail)
        (j + 1) i = (rows.getD (i - n) []).getD j default := by
  intro rows
  induction rows with
  | nil =>
    intro n i tail h1 h2
    simp only [List.length_nil] at h2
    omega
  | cons row rows' ih =>
    intro n i tail h1 h2
    rw [List.enumFrom_cons, List.map_cons, List.cons_append, getLongVal]
    by_cases hin : n = i
    · rw [if_pos ⟨rfl, hin⟩, ← hin, Nat.sub_self, List.getD_cons_zero]
    · rw [if_neg (fun hc => hin hc.2)]
      rw [ih (n + 1) i tail (by omega) (by simp only [List.length_cons] at h2; omega)]
      have hsub : i - n = (i - (n + 1)) + 1 := by omega
      rw [hsub, List.getD_cons_succ]

theorem getLongVal_append_of_forall [Inhabited α] {r i : Nat} :
    ∀ {l₁ l₂ : List (Nat × Nat × α)}, (∀ e ∈ l₁, ¬(e.1 = r ∧ e.2.1 = i)) →
      getLongVal (l₁ ++ l₂) r i = getLongVal l₂ r i := by
  intro l₁
  induction l₁ with
  | nil => intro l₂ _; rfl
  | cons e l ih =>
    intro l₂ h
    obtain ⟨r', i', v⟩ := e
    rw [List.cons_append, getLongVal,
      if_neg (h (r', i', v) (List.mem_cons_self ..))]
    exact ih (fun e he => h e (List.mem_cons_of_mem _ he))

theorem getLongVal_flatMap [Inhabited α] (rows : List (List α)) (i : Nat)
    (hi : i < rows.length) :
    ∀ (m s j : Nat), s ≤ j → j < s + m →
      getLongVal ((List.range' s m).flatMap (runBlock rows)) (j + 1) i =
        (rows.getD i []).getD j default := by
  intro m
  induction m with
  | zero => intro s j h1 h2; omega
  | succ m ih =>
    intro s j h1 h2
    rw [List.range'_succ, List.flatMap_cons]
    by_cases hsj : j = s
    · subst hsj
      rw [show runBlock rows j =
          (rows.enumFrom 0).map (fun ir => (j + 1, ir.1, ir.2.getD j default)) from rfl]
      rw [getLongVal_enumFrom_append j rows 0 i _ (by omega) (by omega), Nat.sub_zero]
    · rw [getLongVal_append_of_forall ?_]
      · exact ih (s + 1) j (by omega) (by omega)
      · intro e he hc
        have h1' := mem_runBlock_run he
        have h2' := hc.1
        omega

theorem getLongVal_directLong [Inhabited α] (rows : List (List α)) (k j i : Nat)
    (hj : j < k) (hi : i < rows.length) :
    getLongVal (directLong rows k) (j + 1) i = (rows.getD i []).getD j default := by
  rw [directLong, List.range_eq_range']
  exact getLongVal_flatMap rows i hi k 0 j (by omega) (by omega)

theorem longToWide_directLong [Inhabited α] (rows : List (List α)) (k : Nat)
    (hrows : ∀ r ∈ rows, r.length = k) :
    longToWide rows.length k (directLong rows k) = rows := by
  rw [longToWide]
  apply List.ext_getElem
  · rw [List.length_map, List.length_range]
  · intro i h1 h2
    rw [List.getElem_map, List.getElem_range]
    apply List.ext_getElem
    · rw [List.length_map, List.length_range, hrows _ (List.getElem_mem h2)]
    · intro j hj1 hj2
      rw [List.getElem_map, List.getElem_range]
      have hjk : j < k := by
        rw [List.length_map, List.length_range] at hj1
        exact hj1
      rw [getLongVal_directLong rows k j i hjk h2,
        List.getD_eq_getElem rows [] h2, List.getD_eq_getElem _ default hj2]

/-- C5 (confirmed).  For a well-formed wide table with `n` rows whose
`k` columns are run-labelled `RUN1..RUNk` in order (the hypothesis asks
exactly that each label parses, by stripping the non-digit prefix, to its
1-based column position), `_convert_wide_plot_table_to_long` produces
exactly the runs `1..k` in ascending order with sim days `0..n-1` ascending
within each run (`directLong`), hence `n*k` rows ordered strictly by
`(run, sim_day)`; and the spec-modelled `long_to_wide` pivot recovers the
original value matrix exactly. -/
theorem wide_to_long_roundtrip {α : Type} [Inhabited α] (t : WideTable α) (k : Nat)
    (hcols : t.cols.map parseRunSuffix = (List.range' 1 k).map some)
    (hrows : ∀ r ∈ t.rows, r.length = k) :
    convertWidePlotTableToLong t = directLong t.rows k ∧
    (convertWidePlotTableToLong t).length = t.rows.length * k ∧
    (convertWidePlotTableToLong t).Chain' runDayLt ∧
    longToWide t.rows.length k (convertWidePlotTableToLong t) = t.rows := by
  have hlen : t.cols.length = k := by
    have h := congrArg List.length hcols
    simpa using h
  have hmelt : meltFrom t.rows 0 t.cols =
      (List.range' 0 t.cols.length).flatMap (runBlock t.rows) := by
    refine meltFrom_eq_flatMap t.rows t.cols 0 ?_
    rw [Nat.zero_add, hlen]
    exact hcols
  have hchain : (meltFrom t.rows 0 t.cols).Chain' runDayLt := by
    rw [hmelt]
    exact chain'_flatMap_runBlock t.rows t.cols.length 0
  have hsorted : convertWidePlotTableToLong t = meltFrom t.rows 0 t.cols := by
    rw [convertWidePlotTableToLong]
    exact insertionSort_eq_of_chain' rowLe _ (hchain.imp (fun _ _ h => runDayLt_rowLe h))
  have hdirect : convertWidePlotTableToLong t = directLong t.rows k := by
    rw [hsorted, hmelt, hlen, directLong, List.range_eq_range']
  refine ⟨hdirect, ?_, ?_, ?_⟩
  · rw [hdirect, directLong, List.range_eq_range', flatMap_runBlock_length t.rows k 0,
      Nat.mul_comm]
  · rw [hsorted]
    exact hchain
  · rw [hdirect]
    exact longToWide_directLong t.rows k hrows

/-- Witness for C5 on a 2-run, 2-day wide table. -/
theorem wide_to_long_roundtrip_witness :
    convertWidePlotTableToLong (⟨["RUN1", "RUN2"], [[10, 20], [30, 40]]⟩ : WideTable Nat) =
      directLong [[10, 20], [30, 40]] 2 ∧
    (convertWidePlotTableToLong
      (⟨["RUN1", "RUN2"], [[10, 20], [30, 40]]⟩ : WideTable Nat)).length = 2 * 2 ∧
    (convertWidePlotTableToLong
      (⟨["RUN1", "RUN2"], [[10, 20], [30, 40]]⟩ : WideTable Nat)).Chain' runDayLt ∧
    longToWide 2 2 (convertWidePlotTableToLong
      (⟨["RUN1", "RUN2"], [[10, 20], [30, 40]]⟩ : WideTable Nat)) = [[10, 20], [30, 40]] :=
  wide_to_long_roundtrip (⟨["RUN1", "RUN2"], [[10, 20], [30, 40]]⟩ : WideTable Nat) 2
    (by decide) (by decide)
